import Mathlib

/-!
Shallow embedding of `markdown2html.py` (the markdown-to-HTML converter).

Lines and HTML fragments are modelled as `List Char` (Python strings).
The converter state `MDState` carries the emitted fragments (most recent
first; the source appends at the end of its `html_lines` list) and the two
booleans `in_unordered_list` / `in_ordered_list`.

`procL` is the body of the source's `for line in markdown_text` loop after
`line = line.rstrip()`; its if/elif chain is translated branch by branch.
`markdown_to_html` folds it over the document and appends the end-of-file
list closings, mirroring the source function of the same name.
-/

namespace MD

/-- Characters of a Lean string literal, to write `List Char` constants. -/
abbrev str (s : String) : List Char := s.data

/-- Python `s.startswith(p)`: `isPre p l` tests that `p` is a prefix of `l`. -/
def isPre : List Char → List Char → Bool
  | [], _ => true
  | _ :: _, [] => false
  | a :: p, b :: l => if a = b then isPre p l else false

/-- `isSuf p l` tests that `p` is a suffix of `l`. -/
def isSuf (p l : List Char) : Bool := isPre p.reverse l.reverse

/-- Python `s[:-n]`: drop the last `n` characters. -/
def dropR (n : Nat) (l : List Char) : List Char := l.take (l.length - n)

/-- Substring test (`pat in l` in Python), used to state counterexamples. -/
def hasSub (pat : List Char) : List Char → Bool
  | [] => isPre pat []
  | c :: r => isPre pat (c :: r) || hasSub pat r

/-- Does the list contain a newline character?  (`.` and `$` in the source's
regexes do not match / do not cross `'\n'`.) -/
def hasNl : List Char → Bool
  | [] => false
  | c :: r => if c = '\n' then true else hasNl r

/-- Python `str.isspace` characters (the set stripped by `str.rstrip()`). -/
def pySpace (c : Char) : Bool :=
  let n := c.toNat
  n = 32 || (9 ≤ n && n ≤ 13) || (28 ≤ n && n ≤ 31) || n = 133 || n = 160 ||
    n = 5760 || (8192 ≤ n && n ≤ 8202) || n = 8232 || n = 8233 || n = 8239 ||
    n = 8287 || n = 12288

/-- Python `line.rstrip()`. -/
def rstrip (l : List Char) : List Char := (l.reverse.dropWhile pySpace).reverse

/-- Length of the leading run of `'#'` characters. -/
def leadHash : List Char → Nat
  | [] => 0
  | c :: r => if c = '#' then leadHash r + 1 else 0

/-- `re.match(r'^(#+) (.*)$', line)`: the greedy `(#+)` takes the maximal
leading `'#'` run (backtracking cannot help, since a shorter run is followed
by `'#'`, not `' '`); then a single space; `(.*)$` takes the rest of the
line provided it contains no newline. Returns `(level, text)` on success. -/
def headingRest (line : List Char) : Option (Nat × List Char) :=
  if leadHash line = 0 then none
  else
    match line.drop (leadHash line) with
    | c :: text => if c = ' ' ∧ hasNl text = false then some (leadHash line, text) else none
    | [] => none

/-- Lazy search for a doubled closing delimiter `d d` (as in `(.*?)\]\]` or
`(.*?)\*\*`): returns the shortest span (which may not contain `'\n'`,
since `.` does not match it) together with the remainder after the closer. -/
def findClose2 (d : Char) : List Char → Option (List Char × List Char)
  | c :: c2 :: r =>
    if c = d ∧ c2 = d then some ([], r)
    else if c = '\n' then none
    else
      match findClose2 d (c2 :: r) with
      | some p => some (c :: p.1, p.2)
      | none => none
  | _ => none

/-- One `re.sub(r'DD(.*?)DD', openT++span++closeT, s)` pass for a doubled
one-character delimiter `d` (the source uses `**` and `__`): scan left to
right; at each position try to match `d d` followed by the lazily shortest
close; on failure advance one character. `fuel` only bounds the recursion
and is instantiated with the list length (each step consumes at least one
character, so the fuel never runs out). -/
def subDouble (d : Char) (openT closeT : List Char) : Nat → List Char → List Char
  | 0, l => l
  | _ + 1, [] => []
  | fuel + 1, c :: r =>
    if c = d then
      match r with
      | c2 :: r2 =>
        if c2 = d then
          match findClose2 d r2 with
          | some p => openT ++ p.1 ++ closeT ++ subDouble d openT closeT fuel p.2
          | none => c :: subDouble d openT closeT fuel r
        else c :: subDouble d openT closeT fuel r
      | [] => [c]
    else c :: subDouble d openT closeT fuel r

/-- `re.sub(r'\*\*(.*?)\*\*', r'<b>\1</b>', text)`. -/
def subBold (l : List Char) : List Char := subDouble '*' (str "<b>") (str "</b>") l.length l

/-- `re.sub(r'__(.*?)__', r'<em>\1</em>', text)`. -/
def subEm (l : List Char) : List Char := subDouble '_' (str "<em>") (str "</em>") l.length l

/-- `format_text` of the source: the bold substitution over the whole line
first, then the emphasis substitution on the intermediate result. -/
def format_text (l : List Char) : List Char := subEm (subBold l)

/-- ASCII case of Python `str.lower()` (the inputs of interest are ASCII). -/
def lowerCh (c : Char) : Char :=
  if 'A' ≤ c ∧ c ≤ 'Z' then Char.ofNat (c.toNat + 32) else c

/-! ### MD5 (`hashlib.md5(content.encode()).hexdigest()`)

The source delegates hashing to Python's `hashlib`; the digest is embedded
here from the MD5 specification (RFC 1321), over `Nat` reduced mod `2^32`.
`encode()` is UTF-8. -/

/-- `n` written as `k` little-endian bytes. -/
def leBytes : Nat → Nat → List Nat
  | 0, _ => []
  | k + 1, n => n % 256 :: leBytes k (n / 256)

/-- Groups of four little-endian bytes as 32-bit words. -/
def toWords : List Nat → List Nat
  | b0 :: b1 :: b2 :: b3 :: r =>
    (b0 + 256 * b1 + 65536 * b2 + 16777216 * b3) :: toWords r
  | _ => []

/-- Reduction mod `2^32`. -/
def m32 (n : Nat) : Nat := n % 4294967296

/-- 32-bit complement of a value below `2^32`. -/
def mnot (a : Nat) : Nat := 4294967295 - a

/-- 32-bit left rotation: the shifted-out high bits reappear at the bottom
(the two summands occupy disjoint bit ranges). -/
def rotl (a s : Nat) : Nat := m32 (a * 2 ^ s) + a / 2 ^ (32 - s)

/-- The MD5 round functions F, G, H, I selected by the operation index. -/
def mF (i b c d : Nat) : Nat :=
  if i < 16 then Nat.lor (Nat.land b c) (Nat.land (mnot b) d)
  else if i < 32 then Nat.lor (Nat.land d b) (Nat.land (mnot d) c)
  else if i < 48 then Nat.xor (Nat.xor b c) d
  else Nat.xor c (Nat.lor b (mnot d))

/-- Message-word index per operation. -/
def gIdx (i : Nat) : Nat :=
  if i < 16 then i
  else if i < 32 then (5 * i + 1) % 16
  else if i < 48 then (3 * i + 5) % 16
  else (7 * i) % 16

/-- The 64 MD5 sine-derived constants `floor(2^32 * abs(sin(i+1)))`. -/
def mdK : List Nat :=
  [0xd76aa478, 0xe8c7b756, 0x242070db, 0xc1bdceee,
   0xf57c0faf, 0x4787c62a, 0xa8304613, 0xfd469501,
   0x698098d8, 0x8b44f7af, 0xffff5bb1, 0x895cd7be,
   0x6b901122, 0xfd987193, 0xa679438e, 0x49b40821,
   0xf61e2562, 0xc040b340, 0x265e5a51, 0xe9b6c7aa,
   0xd62f105d, 0x02441453, 0xd8a1e681, 0xe7d3fbc8,
   0x21e1cde6, 0xc33707d6, 0xf4d50d87, 0x455a14ed,
   0xa9e3e905, 0xfcefa3f8, 0x676f02d9, 0x8d2a4c8a,
   0xfffa3942, 0x8771f681, 0x6d9d6122, 0xfde5380c,
   0xa4beea44, 0x4bdecfa9, 0xf6bb4b60, 0xbebfbc70,
   0x289b7ec6, 0xeaa127fa, 0xd4ef3085, 0x04881d05,
   0xd9d4d039, 0xe6db99e5, 0x1fa27cf8, 0xc4ac5665,
   0xf4292244, 0x432aff97, 0xab9423a7, 0xfc93a039,
   0x655b59c3, 0x8f0ccc92, 0xffeff47d, 0x85845dd1,
   0x6fa87e4f, 0xfe2ce6e0, 0xa3014314, 0x4e0811a1,
   0xf7537e82, 0xbd3af235, 0x2ad7d2bb, 0xeb86d391]

/-- The 64 per-operation rotation amounts. -/
def mdS : List Nat :=
  [7, 12, 17, 22, 7, 12, 17, 22, 7, 12, 17, 22, 7, 12, 17, 22,
   5, 9, 14, 20, 5, 9, 14, 20, 5, 9, 14, 20, 5, 9, 14, 20,
   4, 11, 16, 23, 4, 11, 16, 23, 4, 11, 16, 23, 4, 11, 16, 23,
   6, 10, 15, 21, 6, 10, 15, 21, 6, 10, 15, 21, 6, 10, 15, 21]

/-- One MD5 operation on the running `(a, b, c, d)` quadruple. -/
def md5step (M : List Nat) (st : Nat × Nat × Nat × Nat) (i : Nat) : Nat × Nat × Nat × Nat :=
  let a := st.1; let b := st.2.1; let c := st.2.2.1; let d := st.2.2.2
  let f := m32 (mF i b c d + a + mdK.getD i 0 + M.getD (gIdx i) 0)
  (d, m32 (b + rotl f (mdS.getD i 0)), b, c)

/-- Process one padded 64-byte block. -/
def md5block (st : Nat × Nat × Nat × Nat) (blk : List Nat) : Nat × Nat × Nat × Nat :=
  let M := toWords blk
  let r := (List.range 64).foldl (md5step M) st
  (m32 (st.1 + r.1), m32 (st.2.1 + r.2.1), m32 (st.2.2.1 + r.2.2.1), m32 (st.2.2.2 + r.2.2.2))

/-- MD5 padding: `0x80`, zeros to 56 mod 64, then the bit length as eight
little-endian bytes. -/
def md5pad (msg : List Nat) : List Nat :=
  msg ++ [128] ++ List.replicate ((56 + 64 - (msg.length + 1) % 64) % 64) 0 ++
    leBytes 8 (msg.length * 8 % 18446744073709551616)

/-- Split into 64-byte blocks; the fuel is instantiated with the length. -/
def blocksF : Nat → List Nat → List (List Nat)
  | 0, _ => []
  | _ + 1, [] => []
  | fuel + 1, x :: r => (x :: r).take 64 :: blocksF fuel ((x :: r).drop 64)

/-- One lowercase-hex character. -/
def hexDigit (n : Nat) : Char :=
  if n < 10 then Char.ofNat (48 + n) else Char.ofNat (87 + n)

/-- A byte as two lowercase-hex characters. -/
def byteHex (b : Nat) : List Char := [hexDigit (b / 16), hexDigit (b % 16)]

/-- `hashlib.md5(bytes).hexdigest()`: the 32-character lowercase-hex MD5
digest of a byte sequence. -/
def md5hex (msg : List Nat) : List Char :=
  let padded := md5pad msg
  let st := (blocksF padded.length padded).foldl md5block
    (0x67452301, 0xefcdab89, 0x98badcfe, 0x10325476)
  ((leBytes 4 st.1 ++ leBytes 4 st.2.1 ++ leBytes 4 st.2.2.1 ++ leBytes 4 st.2.2.2).map byteHex).flatten

/-- UTF-8 bytes of one character (Python `str.encode()`). -/
def utf8Char (c : Char) : List Nat :=
  let n := c.toNat
  if n < 128 then [n]
  else if n < 2048 then [192 + n / 64, 128 + n % 64]
  else if n < 65536 then [224 + n / 4096, 128 + n / 64 % 64, 128 + n % 64]
  else [240 + n / 262144, 128 + n / 4096 % 64, 128 + n / 64 % 64, 128 + n % 64]

/-- UTF-8 bytes of a string (Python `str.encode()`). -/
def utf8 (s : List Char) : List Nat := (s.map utf8Char).flatten

/-! ### The block converter -/

/-- Decimal digits of a number (for the f-string `<h{level}>`). -/
def natStr (n : Nat) : List Char := (Nat.repr n).data

/-- The converter's per-call state: emitted fragments (most recent first)
and the two list flags of the source (`in_unordered_list`,
`in_ordered_list`). -/
structure MDState where
  rev : List (List Char)
  in_ul : Bool
  in_ol : Bool
  deriving Repr, DecidableEq

/-- The body of the source's loop, on the already-`rstrip`ped line.  One
branch per `if`/`elif` of the source, in order: heading; `"- "` item;
unordered-list close (which consumes the line: the `elif` chain tests no
further classification); `"* "` item; ordered-list close; `[[ ]]` hash
command (a failed inner match emits nothing); `(( ))` letter-strip command;
non-blank paragraph text (merged into a trailing `<p>`-fragment by
rewriting its last three characters); blank line (which rewrites a trailing
`<p>`-fragment's last three characters to `</p>\n`).  A line is blank iff
it is empty, since it has already been `rstrip`ped. -/
def procL (st : MDState) (line : List Char) : MDState :=
  match headingRest line with
  | some kt =>
    { st with rev :=
        (str "<h" ++ natStr kt.1 ++ str ">" ++ kt.2 ++ str "</h" ++ natStr kt.1 ++ str ">\n")
          :: st.rev }
  | none =>
    if isPre (str "- ") line then
      if st.in_ul then
        { st with rev := (str "<li>" ++ format_text (line.drop 2) ++ str "</li>\n") :: st.rev }
      else
        { rev := (str "<li>" ++ format_text (line.drop 2) ++ str "</li>\n") :: str "<ul>\n" :: st.rev,
          in_ul := true, in_ol := st.in_ol }
    else if st.in_ul then
      { st with rev := str "</ul>\n" :: st.rev, in_ul := false }
    else if isPre (str "* ") line then
      if st.in_ol then
        { st with rev := (str "<li>" ++ format_text (line.drop 2) ++ str "</li>\n") :: st.rev }
      else
        { rev := (str "<li>" ++ format_text (line.drop 2) ++ str "</li>\n") :: str "<ol>\n" :: st.rev,
          in_ul := st.in_ul, in_ol := true }
    else if st.in_ol then
      { st with rev := str "</ol>\n" :: st.rev, in_ol := false }
    else if isPre (str "[[") line then
      match findClose2 ']' (line.drop 2) with
      | some p => { st with rev := (str "<p>" ++ md5hex (utf8 p.1) ++ str "</p>\n") :: st.rev }
      | none => st
    else if isPre (str "((") line then
      match findClose2 ')' (line.drop 2) with
      | some p =>
        { st with rev :=
            (str "<p>" ++ ((p.1.map lowerCh).filter (fun c => !(c = 'c' : Bool))).filter
              (fun c => !(c = 'C' : Bool)) ++ str "</p>\n") :: st.rev }
      | none => st
    else if line = [] then
      match st.rev with
      | last :: rest =>
        if isPre (str "<p>") last then
          { st with rev := (dropR 3 last ++ str "</p>\n") :: rest }
        else st
      | [] => st
    else
      match st.rev with
      | last :: rest =>
        if isPre (str "<p>") last then
          { st with rev :=
              (dropR 3 last ++ str "<br/>\n" ++ format_text line ++ str "</p>\n") :: rest }
        else
          { st with rev :=
              (str "<p>\n" ++ format_text line ++ str "\n" ++ str "</p>\n") :: last :: rest }
      | [] =>
        { st with rev := [str "<p>\n" ++ format_text line ++ str "\n" ++ str "</p>\n"] }

/-- One loop iteration of the source: `line = line.rstrip()` then the
if/elif chain. -/
def processLine (st : MDState) (raw : List Char) : MDState := procL st (rstrip raw)

/-- The state after folding the whole document, from the initial state. -/
def convertState (doc : List (List Char)) : MDState :=
  doc.foldl processLine ⟨[], false, false⟩

/-- The emitted fragments (most recent first) including the end-of-document
list closings: `</ul>` if still in an unordered list, then `</ol>` if still
in an ordered list. -/
def finalFrags (doc : List (List Char)) : List (List Char) :=
  let st := convertState doc
  let r1 := if st.in_ul then str "</ul>\n" :: st.rev else st.rev
  if st.in_ol then str "</ol>\n" :: r1 else r1

/-- `markdown_to_html` of the source: the concatenated fragments. -/
def markdown_to_html (doc : List (List Char)) : List Char :=
  (finalFrags doc).reverse.flatten

/-! ### Counting fragments, and basic list lemmas -/

/-- Number of occurrences of the fragment `x` in an emitted-fragment list. -/
def cnt (x : List Char) : List (List Char) → Nat
  | [] => 0
  | y :: r => (if y = x then 1 else 0) + cnt x r

/-- A boolean as `0` or `1`. -/
def bnum (b : Bool) : Nat := if b then 1 else 0

lemma cnt_cons_ne {x y : List Char} (r : List (List Char)) (h : y ≠ x) :
    cnt x (y :: r) = cnt x r := by
  simp [cnt, h]

lemma cnt_cons_self (x : List Char) (r : List (List Char)) :
    cnt x (x :: r) = cnt x r + 1 := by
  simp [cnt, Nat.add_comm]

lemma cons2_ne {a c b d : Char} {x y : List Char} (h : ¬ b = d) :
    (a :: b :: x) ≠ (c :: d :: y) := by
  intro he
  injection he with h1 h2
  injection h2 with h3 _
  exact h h3

/-- A fragment is none of the four list tags. -/
def nonTag (l : List Char) : Prop :=
  l ≠ str "<ul>\n" ∧ l ≠ str "</ul>\n" ∧ l ≠ str "<ol>\n" ∧ l ≠ str "</ol>\n"

lemma second_ne (c : Char) (x : List Char) (h1 : ¬ c = 'u') (h2 : ¬ c = 'o')
    (h3 : ¬ c = '/') : nonTag ('<' :: c :: x) :=
  ⟨cons2_ne h1, cons2_ne h3, cons2_ne h2, cons2_ne h3⟩

lemma isPre_pair {a b : Char} {p l : List Char} (h : isPre (a :: b :: p) l = true) :
    ∃ r, l = a :: b :: r := by
  match l with
  | [] => exact absurd h (by simp [isPre])
  | [c] =>
    by_cases hac : a = c
    · simp only [isPre, if_pos hac] at h
      exact absurd h (by simp [isPre])
    · simp only [isPre, if_neg hac] at h
      exact absurd h (by simp)
  | c :: d :: r =>
    by_cases hac : a = c
    · by_cases hbd : b = d
      · exact ⟨r, by rw [hac, hbd]⟩
      · simp only [isPre, if_pos hac, if_neg hbd] at h
        exact absurd h (by simp)
    · simp only [isPre, if_neg hac] at h
      exact absurd h (by simp)

lemma startP_nonTag {l : List Char} (h : isPre (str "<p>") l = true) : nonTag l := by
  obtain ⟨r, rfl⟩ := isPre_pair h
  exact second_ne 'p' r (by decide) (by decide) (by decide)

lemma isPre_self_append (p r : List Char) : isPre p (p ++ r) = true := by
  induction p with
  | nil => rfl
  | cons a p ih => simp [isPre, ih]

lemma isSuf_append (x s : List Char) : isSuf s (x ++ s) = true := by
  unfold isSuf
  rw [List.reverse_append]
  exact isPre_self_append _ _

lemma long_nonTag {l : List Char} (h : 7 ≤ l.length) : nonTag l := by
  refine ⟨fun he => ?_, fun he => ?_, fun he => ?_, fun he => ?_⟩ <;>
    (rw [he] at h; exact absurd h (by decide))

lemma merge_nonTag (a f : List Char) :
    nonTag (a ++ str "<br/>\n" ++ f ++ str "</p>\n") := by
  apply long_nonTag
  have h1 : (str "<br/>\n").length = 6 := by decide
  have h2 : (str "</p>\n").length = 5 := by decide
  simp [List.length_append, h1, h2]
  omega

lemma blankMut_nonTag {last : List Char} (h : isPre (str "<p>") last = true) :
    nonTag (dropR 3 last ++ str "</p>\n") := by
  obtain ⟨r, rfl⟩ := isPre_pair h
  match r with
  | [] => exact ⟨by decide, by decide, by decide, by decide⟩
  | [c2] =>
    have e : dropR 3 ('<' :: 'p' :: [c2]) = [] := rfl
    rw [e]
    exact ⟨by decide, by decide, by decide, by decide⟩
  | [c2, c3] =>
    have e : dropR 3 ('<' :: 'p' :: [c2, c3]) = ['<'] := rfl
    rw [e]
    exact ⟨by decide, by decide, by decide, by decide⟩
  | c2 :: c3 :: c4 :: r4 =>
    exact second_ne 'p' _ (by decide) (by decide) (by decide)

/-! ### The list-balance invariant (claim about `<ul>`/`</ul>`, `<ol>`/`</ol>`) -/

/-- During conversion, the opening tags emitted so far exceed the closing
tags by exactly the corresponding open flag. -/
def tagsP (st : MDState) : Prop :=
  cnt (str "<ul>\n") st.rev = cnt (str "</ul>\n") st.rev + bnum st.in_ul ∧
  cnt (str "<ol>\n") st.rev = cnt (str "</ol>\n") st.rev + bnum st.in_ol

lemma tagsP_cons {st : MDState} {f : List Char} (h : tagsP st) (hf : nonTag f) :
    tagsP { st with rev := f :: st.rev } := by
  obtain ⟨h1, h2⟩ := h
  constructor
  · show cnt (str "<ul>\n") (f :: st.rev) = cnt (str "</ul>\n") (f :: st.rev) + bnum st.in_ul
    rw [cnt_cons_ne _ hf.1, cnt_cons_ne _ hf.2.1]
    exact h1
  · show cnt (str "<ol>\n") (f :: st.rev) = cnt (str "</ol>\n") (f :: st.rev) + bnum st.in_ol
    rw [cnt_cons_ne _ hf.2.2.1, cnt_cons_ne _ hf.2.2.2]
    exact h2

lemma tagsP_openUl {st : MDState} {f : List Char} (h : tagsP st) (hu : st.in_ul = false)
    (hf : nonTag f) : tagsP ⟨f :: str "<ul>\n" :: st.rev, true, st.in_ol⟩ := by
  obtain ⟨h1, h2⟩ := h
  rw [hu] at h1
  simp only [bnum, if_neg Bool.false_ne_true] at h1
  constructor
  · show cnt (str "<ul>\n") (f :: str "<ul>\n" :: st.rev) =
      cnt (str "</ul>\n") (f :: str "<ul>\n" :: st.rev) + bnum true
    rw [cnt_cons_ne _ hf.1, cnt_cons_self, cnt_cons_ne _ hf.2.1,
      cnt_cons_ne _ (by decide : str "<ul>\n" ≠ str "</ul>\n")]
    simp [bnum]
    omega
  · show cnt (str "<ol>\n") (f :: str "<ul>\n" :: st.rev) =
      cnt (str "</ol>\n") (f :: str "<ul>\n" :: st.rev) + bnum st.in_ol
    rw [cnt_cons_ne _ hf.2.2.1, cnt_cons_ne _ (by decide : str "<ul>\n" ≠ str "<ol>\n"),
      cnt_cons_ne _ hf.2.2.2, cnt_cons_ne _ (by decide : str "<ul>\n" ≠ str "</ol>\n")]
    exact h2

lemma tagsP_closeUl {st : MDState} (h : tagsP st) (hu : st.in_ul = true) :
    tagsP ⟨str "</ul>\n" :: st.rev, false, st.in_ol⟩ := by
  obtain ⟨h1, h2⟩ := h
  rw [hu] at h1
  simp [bnum] at h1
  constructor
  · show cnt (str "<ul>\n") (str "</ul>\n" :: st.rev) =
      cnt (str "</ul>\n") (str "</ul>\n" :: st.rev) + bnum false
    rw [cnt_cons_ne _ (by decide : str "</ul>\n" ≠ str "<ul>\n"), cnt_cons_self]
    simp [bnum]
    omega
  · show cnt (str "<ol>\n") (str "</ul>\n" :: st.rev) =
      cnt (str "</ol>\n") (str "</ul>\n" :: st.rev) + bnum st.in_ol
    rw [cnt_cons_ne _ (by decide : str "</ul>\n" ≠ str "<ol>\n"),
      cnt_cons_ne _ (by decide : str "</ul>\n" ≠ str "</ol>\n")]
    exact h2

lemma tagsP_openOl {st : MDState} {f : List Char} (h : tagsP st) (ho : st.in_ol = false)
    (hf : nonTag f) : tagsP ⟨f :: str "<ol>\n" :: st.rev, st.in_ul, true⟩ := by
  obtain ⟨h1, h2⟩ := h
  rw [ho] at h2
  simp only [bnum, if_neg Bool.false_ne_true] at h2
  constructor
  · show cnt (str "<ul>\n") (f :: str "<ol>\n" :: st.rev) =
      cnt (str "</ul>\n") (f :: str "<ol>\n" :: st.rev) + bnum st.in_ul
    rw [cnt_cons_ne _ hf.1, cnt_cons_ne _ (by decide : str "<ol>\n" ≠ str "<ul>\n"),
      cnt_cons_ne _ hf.2.1, cnt_cons_ne _ (by decide : str "<ol>\n" ≠ str "</ul>\n")]
    exact h1
  · show cnt (str "<ol>\n") (f :: str "<ol>\n" :: st.rev) =
      cnt (str "</ol>\n") (f :: str "<ol>\n" :: st.rev) + bnum true
    rw [cnt_cons_ne _ hf.2.2.1, cnt_cons_self, cnt_cons_ne _ hf.2.2.2,
      cnt_cons_ne _ (by decide : str "<ol>\n" ≠ str "</ol>\n")]
    simp [bnum]
    omega

lemma tagsP_closeOl {st : MDState} (h : tagsP st) (ho : st.in_ol = true) :
    tagsP ⟨str "</ol>\n" :: st.rev, st.in_ul, false⟩ := by
  obtain ⟨h1, h2⟩ := h
  rw [ho] at h2
  simp [bnum] at h2
  constructor
  · show cnt (str "<ul>\n") (str "</ol>\n" :: st.rev) =
      cnt (str "</ul>\n") (str "</ol>\n" :: st.rev) + bnum st.in_ul
    rw [cnt_cons_ne _ (by decide : str "</ol>\n" ≠ str "<ul>\n"),
      cnt_cons_ne _ (by decide : str "</ol>\n" ≠ str "</ul>\n")]
    exact h1
  · show cnt (str "<ol>\n") (str "</ol>\n" :: st.rev) =
      cnt (str "</ol>\n") (str "</ol>\n" :: st.rev) + bnum false
    rw [cnt_cons_ne _ (by decide : str "</ol>\n" ≠ str "<ol>\n"), cnt_cons_self]
    simp [bnum]
    omega

lemma tagsP_replace {st : MDState} {old f : List Char} {rest : List (List Char)}
    (h : tagsP st) (hrev : st.rev = old :: rest) (ho : nonTag old) (hf : nonTag f) :
    tagsP { st with rev := f :: rest } := by
  obtain ⟨h1, h2⟩ := h
  rw [hrev, cnt_cons_ne _ ho.1, cnt_cons_ne _ ho.2.1] at h1
  rw [hrev, cnt_cons_ne _ ho.2.2.1, cnt_cons_ne _ ho.2.2.2] at h2
  constructor
  · show cnt (str "<ul>\n") (f :: rest) = cnt (str "</ul>\n") (f :: rest) + bnum st.in_ul
    rw [cnt_cons_ne _ hf.1, cnt_cons_ne _ hf.2.1]
    exact h1
  · show cnt (str "<ol>\n") (f :: rest) = cnt (str "</ol>\n") (f :: rest) + bnum st.in_ol
    rw [cnt_cons_ne _ hf.2.2.1, cnt_cons_ne _ hf.2.2.2]
    exact h2

/-- Every branch of the loop body preserves the list-balance invariant. -/
lemma procL_tagsP (st : MDState) (line : List Char) (h : tagsP st) :
    tagsP (procL st line) := by
  unfold procL
  split
  · exact tagsP_cons h (second_ne 'h' _ (by decide) (by decide) (by decide))
  · split
    · split
      · exact tagsP_cons h (second_ne 'l' _ (by decide) (by decide) (by decide))
      · next hu =>
        exact tagsP_openUl h (by simp_all) (second_ne 'l' _ (by decide) (by decide) (by decide))
    · split
      · next hu => exact tagsP_closeUl h hu
      · split
        · split
          · exact tagsP_cons h (second_ne 'l' _ (by decide) (by decide) (by decide))
          · next ho =>
            exact tagsP_openOl h (by simp_all)
              (second_ne 'l' _ (by decide) (by decide) (by decide))
        · split
          · next ho => exact tagsP_closeOl h ho
          · split
            · split
              · exact tagsP_cons h (second_ne 'p' _ (by decide) (by decide) (by decide))
              · exact h
            · split
              · split
                · exact tagsP_cons h (second_ne 'p' _ (by decide) (by decide) (by decide))
                · exact h
              · split
                · split
                  · next last rest heq =>
                    split
                    · next hp => exact tagsP_replace h heq (startP_nonTag hp) (blankMut_nonTag hp)
                    · exact h
                  · exact h
                · split
                  · next last rest heq =>
                    split
                    · next hp => exact tagsP_replace h heq (startP_nonTag hp) (merge_nonTag _ _)
                    · have hc := tagsP_cons h
                        (second_ne 'p' _ (by decide) (by decide) (by decide) :
                          nonTag (str "<p>\n" ++ format_text line ++ str "\n" ++ str "</p>\n"))
                      rw [heq] at hc
                      exact hc
                  · next heq =>
                    have hc := tagsP_cons h
                      (second_ne 'p' _ (by decide) (by decide) (by decide) :
                        nonTag (str "<p>\n" ++ format_text line ++ str "\n" ++ str "</p>\n"))
                    rw [heq] at hc
                    exact hc

lemma foldl_tagsP (l : List (List Char)) :
    ∀ st : MDState, tagsP st → tagsP (l.foldl processLine st) := by
  induction l with
  | nil => exact fun st h => h
  | cons raw rest ih =>
    intro st h
    exact ih _ (procL_tagsP st (rstrip raw) h)

/-! ### Paragraph fragments always carry their closing tag -/

/-- A fragment is well-closed: if it starts with the paragraph opener it
also ends with the closing paragraph tag. -/
def pfragOk (f : List Char) : Prop :=
  isPre (str "<p>") f = true → isSuf (str "</p>\n") f = true

def paraClosedL (l : List (List Char)) : Prop := ∀ f ∈ l, pfragOk f

lemma pfragOk_notP {f : List Char} (h : isPre (str "<p>") f = false) : pfragOk f := by
  intro hs
  rw [h] at hs
  exact absurd hs (by simp)

lemma pfragOk_ends (x : List Char) : pfragOk (x ++ str "</p>\n") :=
  fun _ => isSuf_append _ _

lemma startP_false (c : Char) (x : List Char) (h : ¬ ('p' : Char) = c) :
    isPre (str "<p>") ('<' :: c :: x) = false := by
  have e : str "<p>" = ['<', 'p', '>'] := rfl
  rw [e]
  simp [isPre, h]

lemma paraClosedL_cons {l : List (List Char)} {f : List Char} (h : paraClosedL l)
    (hf : pfragOk f) : paraClosedL (f :: l) := by
  intro g hm
  rcases List.mem_cons.mp hm with rfl | hm2
  · exact hf
  · exact h g hm2

lemma paraClosedL_tail {l : List (List Char)} {f : List Char}
    (h : paraClosedL (f :: l)) : paraClosedL l :=
  fun g hm => h g (List.mem_cons_of_mem _ hm)

/-- Every branch of the loop body preserves well-closedness of all emitted
fragments. -/
lemma procL_paraClosed (st : MDState) (line : List Char) (h : paraClosedL st.rev) :
    paraClosedL (procL st line).rev := by
  unfold procL
  split
  · exact paraClosedL_cons h (pfragOk_notP (startP_false 'h' _ (by decide)))
  · split
    · split
      · exact paraClosedL_cons h (pfragOk_notP (startP_false 'l' _ (by decide)))
      · exact paraClosedL_cons (paraClosedL_cons h (pfragOk_notP (by decide)))
          (pfragOk_notP (startP_false 'l' _ (by decide)))
    · split
      · exact paraClosedL_cons h (pfragOk_notP (by decide))
      · split
        · split
          · exact paraClosedL_cons h (pfragOk_notP (startP_false 'l' _ (by decide)))
          · exact paraClosedL_cons (paraClosedL_cons h (pfragOk_notP (by decide)))
              (pfragOk_notP (startP_false 'l' _ (by decide)))
        · split
          · exact paraClosedL_cons h (pfragOk_notP (by decide))
          · split
            · split
              · exact paraClosedL_cons h (pfragOk_ends _)
              · exact h
            · split
              · split
                · exact paraClosedL_cons h (pfragOk_ends _)
                · exact h
              · split
                · split
                  · next last rest heq =>
                    split
                    · rw [heq] at h
                      exact paraClosedL_cons (paraClosedL_tail h) (pfragOk_ends _)
                    · exact h
                  · exact h
                · split
                  · next last rest heq =>
                    split
                    · rw [heq] at h
                      exact paraClosedL_cons (paraClosedL_tail h) (pfragOk_ends _)
                    · rw [heq] at h
                      exact paraClosedL_cons h (pfragOk_ends _)
                  · next heq =>
                    rw [heq] at h
                    exact paraClosedL_cons h (pfragOk_ends _)

lemma foldl_paraClosed (l : List (List Char)) :
    ∀ st : MDState, paraClosedL st.rev → paraClosedL (l.foldl processLine st).rev := by
  induction l with
  | nil => exact fun st h => h
  | cons raw rest ih =>
    intro st h
    exact ih _ (procL_paraClosed st (rstrip raw) h)

/-! ### The heading pattern -/

lemma leadHash_replicate (k : Nat) (text : List Char) :
    leadHash (List.replicate k '#' ++ ' ' :: text) = k := by
  induction k with
  | zero => simp [leadHash, (by decide : ¬ (' ' : Char) = '#')]
  | succ n ih => simp [List.replicate_succ, leadHash, ih]

lemma headingRest_replicate (k : Nat) (text : List Char) (hk : 1 ≤ k)
    (hn : hasNl text = false) :
    headingRest (List.replicate k '#' ++ ' ' :: text) = some (k, text) := by
  have hlead : leadHash (List.replicate k '#' ++ ' ' :: text) = k :=
    leadHash_replicate k text
  have hdrop : (List.replicate k '#' ++ ' ' :: text).drop k = ' ' :: text := by
    have h := List.drop_left (List.replicate k '#') (' ' :: text)
    rwa [List.length_replicate] at h
  unfold headingRest
  rw [hlead, hdrop, if_neg (by omega)]
  simp [hn]

lemma headingRest_cons_ne {c : Char} (l : List Char) (h : ¬ c = '#') :
    headingRest (c :: l) = none := by
  simp [headingRest, leadHash, h]

/-! ### Claims -/

/-- C1, counterexample: `convert(["- a", "- b", "text"])` does NOT contain a
paragraph with "text" — the line after the list items only triggers the
`</ul>` branch of the `elif` chain and is then skipped, so the output is
just the list, and the string "text" appears nowhere in it. -/
theorem C1_cex :
    markdown_to_html [str "- a", str "- b", str "text"] =
      str "<ul>\n<li>a</li>\n<li>b</li>\n</ul>\n" ∧
    hasSub (str "text") (markdown_to_html [str "- a", str "- b", str "text"]) = false := by
  decide

/-- C1, amended: when the converter is inside an unordered list and the
current line is not a heading and does not start with `"- "`, it emits
`</ul>` and clears the flag, but it does NOT re-evaluate the line: nothing
else is emitted and the line is consumed (the state changes in no other
way).  Symmetrically for ordered-list close.  Hence
`convert(["- a", "- b", "text"])` is exactly the one balanced list, with no
paragraph for "text". -/
theorem C1_amended :
    (∀ (st : MDState) (raw : List Char), headingRest (rstrip raw) = none →
      isPre (str "- ") (rstrip raw) = false → st.in_ul = true →
      processLine st raw = { st with rev := str "</ul>\n" :: st.rev, in_ul := false }) ∧
    (∀ (st : MDState) (raw : List Char), headingRest (rstrip raw) = none →
      isPre (str "- ") (rstrip raw) = false → st.in_ul = false →
      isPre (str "* ") (rstrip raw) = false → st.in_ol = true →
      processLine st raw = { st with rev := str "</ol>\n" :: st.rev, in_ol := false }) ∧
    markdown_to_html [str "- a", str "- b", str "text"] =
      str "<ul>\n<li>a</li>\n<li>b</li>\n</ul>\n" := by
  refine ⟨?_, ?_, by decide⟩
  · intro st raw h1 h2 h3
    unfold processLine
    simp [procL, h1, h2, h3]
  · intro st raw h1 h2 h3 h4 h5
    unfold processLine
    simp [procL, h1, h2, h3, h4, h5]

/-- C1, witness: the unordered-list close branch applied at a concrete
state and line. -/
theorem C1_amended_w :
    processLine ⟨[], true, false⟩ (str "x") = ⟨[str "</ul>\n"], false, false⟩ :=
  C1_amended.1 ⟨[], true, false⟩ (str "x") (by decide) (by decide) rfl

/-- C2, counterexample: a line starting with `[[` but with no closing `]]`
(and likewise `((` without `))`) is NOT emitted as paragraph content — the
converter emits nothing at all for it, so the line is silently lost. -/
theorem C2_cex :
    markdown_to_html [str "[[abc"] = [] ∧ markdown_to_html [str "((abc"] = [] := by
  decide

/-- C2, amended: a line starting with `[[` whose inner match fails (no `]]`
on the line), or starting with `((` with no `))`, is silently dropped
when no list is open: the converter's state is completely unchanged —
the line does not fall through to paragraph handling.  In particular
`convert(["[[abc"])` is empty. -/
theorem C2_amended :
    (∀ (st : MDState) (raw : List Char), st.in_ul = false → st.in_ol = false →
      isPre (str "[[") (rstrip raw) = true →
      findClose2 ']' ((rstrip raw).drop 2) = none → processLine st raw = st) ∧
    (∀ (st : MDState) (raw : List Char), st.in_ul = false → st.in_ol = false →
      isPre (str "((") (rstrip raw) = true →
      findClose2 ')' ((rstrip raw).drop 2) = none → processLine st raw = st) ∧
    markdown_to_html [str "[[abc"] = [] := by
  refine ⟨?_, ?_, by decide⟩
  · intro st raw hu ho hpre hcl
    obtain ⟨r, hr⟩ := isPre_pair hpre
    have hcl2 : findClose2 ']' r = none := by rw [hr] at hcl; exact hcl
    have eDrop : List.drop 2 ('[' :: '[' :: r) = r := rfl
    have eDash : str "- " = ['-', ' '] := rfl
    have eStar : str "* " = ['*', ' '] := rfl
    have eBr : str "[[" = ['[', '['] := rfl
    unfold processLine
    rw [hr]
    simp [procL, headingRest_cons_ne _ (by decide : ¬ ('[' : Char) = '#'),
      eDash, eStar, eBr, isPre, hu, ho, eDrop, hcl2]
  · intro st raw hu ho hpre hcl
    obtain ⟨r, hr⟩ := isPre_pair hpre
    have hcl2 : findClose2 ')' r = none := by rw [hr] at hcl; exact hcl
    have eDrop : List.drop 2 ('(' :: '(' :: r) = r := rfl
    have eDash : str "- " = ['-', ' '] := rfl
    have eStar : str "* " = ['*', ' '] := rfl
    have eBr : str "[[" = ['[', '['] := rfl
    have ePar : str "((" = ['(', '('] := rfl
    unfold processLine
    rw [hr]
    simp [procL, headingRest_cons_ne _ (by decide : ¬ ('(' : Char) = '#'),
      eDash, eStar, eBr, ePar, isPre, hu, ho, eDrop, hcl2]

/-- C2, witness: a `[[`-line without `]]` leaves a concrete state
untouched. -/
theorem C2_amended_w :
    processLine ⟨[], false, false⟩ (str "[[abc") = ⟨[], false, false⟩ :=
  C2_amended.1 ⟨[], false, false⟩ (str "[[abc") rfl rfl (by decide) (by decide)

/-- C3, counterexample: after processing `["* a", "- b"]` BOTH parser-state
booleans are true, and the emitted output interleaves the two list kinds
with no intervening close of the ordered list. -/
theorem C3_cex :
    (convertState [str "* a", str "- b"]).in_ul = true ∧
    (convertState [str "* a", str "- b"]).in_ol = true ∧
    markdown_to_html [str "* a", str "- b"] =
      str "<ol>\n<li>a</li>\n<ul>\n<li>b</li>\n</ul>\n</ol>\n" := by
  decide

/-- C3, amended: the invariant holds in one direction only — a step can set
the in-ordered-list flag only when the in-unordered-list flag is false
(and it stays false).  The converse fails: a `"- "` line inside an ordered
list opens `<ul>` without closing `</ol>`, so both flags can be true
simultaneously, as the counterexample shows. -/
theorem C3_amended (st : MDState) (raw : List Char) (h1 : st.in_ol = false)
    (h2 : (processLine st raw).in_ol = true) :
    st.in_ul = false ∧ (processLine st raw).in_ul = false := by
  revert h2
  unfold processLine procL
  repeat' split
  all_goals intro h2
  all_goals simp_all

/-- C3, witness: opening an ordered list from the initial state. -/
theorem C3_amended_w :
    (⟨[], false, false⟩ : MDState).in_ul = false ∧
    (processLine ⟨[], false, false⟩ (str "* a")).in_ul = false :=
  C3_amended ⟨[], false, false⟩ (str "* a") rfl (by decide)

/-- C4, counterexample: a document ending in an open paragraph still ends
with the closing `</p>` tag — `convert(["text"])` is `<p>\ntext\n</p>\n`,
which ends with `</p>\n`, contradicting "left without a closing tag". -/
theorem C4_cex :
    markdown_to_html [str "text"] = str "<p>\ntext\n</p>\n" ∧
    isSuf (str "</p>\n") (markdown_to_html [str "text"]) = true := by
  decide

/-- C4, amended: end-of-document does force-close only lists, but no
paragraph is ever left unclosed, because every emitted fragment that starts
with `<p>` already ends with `</p>\n` (paragraph fragments carry their
closing tag from the moment they are appended). -/
theorem C4_amended :
    (∀ (doc : List (List Char)) (f : List Char), f ∈ (convertState doc).rev →
      isPre (str "<p>") f = true → isSuf (str "</p>\n") f = true) ∧
    markdown_to_html [str "text"] = str "<p>\ntext\n</p>\n" := by
  constructor
  · intro doc f hm hp
    have h := foldl_paraClosed doc ⟨[], false, false⟩
      (by intro g hg; exact absurd hg (List.not_mem_nil g))
    exact h f hm hp
  · decide

/-- C4, witness: the single fragment of `convert(["text"])` starts with
`<p>` and ends with `</p>\n`. -/
theorem C4_amended_w :
    isSuf (str "</p>\n") (str "<p>\ntext\n</p>\n") = true :=
  C4_amended.1 [str "text"] (str "<p>\ntext\n</p>\n") (by decide) (by decide)

/-- C5, counterexample: a blank line does not terminate an open paragraph
by appending the closing tag — it rewrites the fragment's last three
characters, so the previous output is not even a prefix of the new one
(`convert(["A",""])` is `<p>\nA\n</</p>\n`), and a second blank line is not
a no-op either (`convert(["A","",""])` is `<p>\nA\n</</</p>\n`). -/
theorem C5_cex :
    markdown_to_html [str "A", str ""] = str "<p>\nA\n</</p>\n" ∧
    isPre (markdown_to_html [str "A"]) (markdown_to_html [str "A", str ""]) = false ∧
    markdown_to_html [str "A", str "", str ""] = str "<p>\nA\n</</</p>\n" := by
  decide

/-- C5, amended: two consecutive plain-text lines do merge into a single
fragment (first fragment minus its last three characters, then `<br/>`,
the second formatted line and `</p>\n`, e.g. `convert(["A","B"]) =
"<p>\nA\n</<br/>\nB</p>\n"`); a blank line after a fragment starting with
`<p>` REPLACES that fragment's last three characters with `</p>\n` rather
than appending; and a blank line is a no-op only when no list is open and
the last fragment does not start with `<p>` (or no fragment exists). -/
theorem C5_amended :
    (∀ (st : MDState) (last : List Char) (rest : List (List Char)) (raw : List Char),
      st.rev = last :: rest → st.in_ul = false → st.in_ol = false →
      rstrip raw = [] → isPre (str "<p>") last = true →
      processLine st raw = { st with rev := (dropR 3 last ++ str "</p>\n") :: rest }) ∧
    (∀ (st : MDState) (raw : List Char), st.in_ul = false → st.in_ol = false →
      rstrip raw = [] → isPre (str "<p>") (st.rev.headD []) = false →
      processLine st raw = st) ∧
    markdown_to_html [str "A", str "B"] = str "<p>\nA\n</<br/>\nB</p>\n" ∧
    markdown_to_html [str "A", str ""] = str "<p>\nA\n</</p>\n" := by
  refine ⟨?_, ?_, by decide, by decide⟩
  · intro st last rest raw hrev hu ho hraw hp
    have eDash : str "- " = ['-', ' '] := rfl
    have eStar : str "* " = ['*', ' '] := rfl
    have eBr : str "[[" = ['[', '['] := rfl
    have ePar : str "((" = ['(', '('] := rfl
    unfold processLine
    rw [hraw]
    simp [procL, headingRest, leadHash, eDash, eStar, eBr, ePar, isPre, hu, ho, hrev, hp]
  · intro st raw hu ho hraw hd
    have eDash : str "- " = ['-', ' '] := rfl
    have eStar : str "* " = ['*', ' '] := rfl
    have eBr : str "[[" = ['[', '['] := rfl
    have ePar : str "((" = ['(', '('] := rfl
    cases hrev : st.rev with
    | nil =>
      unfold processLine
      rw [hraw]
      simp [procL, headingRest, leadHash, eDash, eStar, eBr, ePar, isPre, hu, ho, hrev]
    | cons last rest =>
      rw [hrev] at hd
      simp only [List.headD_cons] at hd
      unfold processLine
      rw [hraw]
      simp [procL, headingRest, leadHash, eDash, eStar, eBr, ePar, isPre, hu, ho, hrev, hd]

/-- C5, witness: a blank line after a concrete open paragraph rewrites its
tail (the mangled result, not an appended close). -/
theorem C5_amended_w :
    processLine ⟨[str "<p>\nA\n</p>\n"], false, false⟩ (str "") =
      ⟨[str "<p>\nA\n</</p>\n"], false, false⟩ :=
  C5_amended.1 ⟨[str "<p>\nA\n</p>\n"], false, false⟩ (str "<p>\nA\n</p>\n") [] (str "")
    rfl rfl rfl rfl (by decide)

/-- C6: for every document the number of `<ul>` fragments in the final
output equals the number of `</ul>` fragments, and likewise for
`<ol>`/`</ol>` (list-balance invariant, including the forced closes at end
of document). -/
theorem C6_balance (doc : List (List Char)) :
    cnt (str "<ul>\n") (finalFrags doc) = cnt (str "</ul>\n") (finalFrags doc) ∧
    cnt (str "<ol>\n") (finalFrags doc) = cnt (str "</ol>\n") (finalFrags doc) := by
  have hT : tagsP (convertState doc) := foldl_tagsP doc ⟨[], false, false⟩ ⟨rfl, rfl⟩
  obtain ⟨h1, h2⟩ := hT
  cases hu : (convertState doc).in_ul <;> cases ho : (convertState doc).in_ol
  · have e : finalFrags doc = (convertState doc).rev := by simp [finalFrags, hu, ho]
    rw [hu] at h1
    rw [ho] at h2
    simp [bnum] at h1 h2
    rw [e]
    exact ⟨h1, h2⟩
  · have e : finalFrags doc = str "</ol>\n" :: (convertState doc).rev := by
      simp [finalFrags, hu, ho]
    rw [hu] at h1
    rw [ho] at h2
    simp [bnum] at h1 h2
    rw [e]
    constructor
    · rw [cnt_cons_ne _ (by decide : str "</ol>\n" ≠ str "<ul>\n"),
        cnt_cons_ne _ (by decide : str "</ol>\n" ≠ str "</ul>\n")]
      exact h1
    · rw [cnt_cons_ne _ (by decide : str "</ol>\n" ≠ str "<ol>\n"), cnt_cons_self]
      omega
  · have e : finalFrags doc = str "</ul>\n" :: (convertState doc).rev := by
      simp [finalFrags, hu, ho]
    rw [hu] at h1
    rw [ho] at h2
    simp [bnum] at h1 h2
    rw [e]
    constructor
    · rw [cnt_cons_ne _ (by decide : str "</ul>\n" ≠ str "<ul>\n"), cnt_cons_self]
      omega
    · rw [cnt_cons_ne _ (by decide : str "</ul>\n" ≠ str "<ol>\n"),
        cnt_cons_ne _ (by decide : str "</ul>\n" ≠ str "</ol>\n")]
      exact h2
  · have e : finalFrags doc = str "</ol>\n" :: str "</ul>\n" :: (convertState doc).rev := by
      simp [finalFrags, hu, ho]
    rw [hu] at h1
    rw [ho] at h2
    simp [bnum] at h1 h2
    rw [e]
    constructor
    · rw [cnt_cons_ne _ (by decide : str "</ol>\n" ≠ str "<ul>\n"),
        cnt_cons_ne _ (by decide : str "</ul>\n" ≠ str "<ul>\n"),
        cnt_cons_ne _ (by decide : str "</ol>\n" ≠ str "</ul>\n"), cnt_cons_self]
      omega
    · rw [cnt_cons_ne _ (by decide : str "</ol>\n" ≠ str "<ol>\n"),
        cnt_cons_ne _ (by decide : str "</ul>\n" ≠ str "<ol>\n"),
        cnt_cons_self, cnt_cons_ne _ (by decide : str "</ul>\n" ≠ str "</ol>\n")]
      omega

/-- C7: a line whose (rstripped) form is `k` hash marks, a single space and
a newline-free remainder (the `^#+ .*$` pattern, any `k ≥ 1`) makes the
converter emit exactly the `<h{k}>{text}</h{k}>` fragment with the text
verbatim — not passed through the inline formatter — and change nothing
else; e.g. `convert(["## **b** and __i__"])` keeps the `**`/`__` markers. -/
theorem C7_heading :
    (∀ (st : MDState) (raw : List Char) (k : Nat) (text : List Char),
      1 ≤ k → hasNl text = false →
      rstrip raw = List.replicate k '#' ++ ' ' :: text →
      processLine st raw = { st with rev :=
        (str "<h" ++ natStr k ++ str ">" ++ text ++ str "</h" ++ natStr k ++ str ">\n")
          :: st.rev }) ∧
    markdown_to_html [str "## **b** and __i__"] = str "<h2>**b** and __i__</h2>\n" := by
  refine ⟨?_, by decide⟩
  intro st raw k text hk hn hline
  unfold processLine
  rw [hline]
  simp [procL, headingRest_replicate k text hk hn, natStr]

/-- C7, witness: the heading branch at a concrete line. -/
theorem C7_heading_w :
    processLine ⟨[], false, false⟩ (str "# hi") = ⟨[str "<h1>hi</h1>\n"], false, false⟩ :=
  C7_heading.1 ⟨[], false, false⟩ (str "# hi") 1 (str "hi") (by decide) (by decide) (by decide)

set_option maxRecDepth 8000 in
/-- C8: `convert(["[[abc]]"])` is a single `<p>...</p>` fragment whose
content is the 32-character lowercase-hex MD5 digest of the three bytes
"abc" (the digest is computed by the RFC 1321 embedding `md5hex` over the
UTF-8 encoding, matching `hashlib.md5`). -/
theorem C8_hash :
    markdown_to_html [str "[[abc]]"] = str "<p>900150983cd24fb0d6963f7d28e17f72</p>\n" ∧
    (md5hex (utf8 (str "abc"))).length = 32 ∧
    (md5hex (utf8 (str "abc"))).all (fun c => (str "0123456789abcdef").contains c) = true := by
  decide

/-- C9: the inline formatter applies the bold rule to the whole line first
and the emphasis rule to the intermediate result (by definition of
`format_text`), with lazy leftmost-shortest non-overlapping matching (so
`**a** **b**` gives two separate bold spans, not one greedy span); in
particular `convert(["**bold** and __em__"])` yields a paragraph containing
`<b>bold</b> and <em>em</em>`. -/
theorem C9_format :
    format_text (str "**bold** and __em__") = str "<b>bold</b> and <em>em</em>" ∧
    markdown_to_html [str "**bold** and __em__"] =
      str "<p>\n<b>bold</b> and <em>em</em>\n</p>\n" ∧
    format_text (str "**a** **b**") = str "<b>a</b> <b>b</b>" ∧
    (∀ s, format_text s = subEm (subBold s)) :=
  ⟨by decide, by decide, by decide, fun _ => rfl⟩

set_option maxRecDepth 8000 in
/-- C10: the open-paragraph detection is a `<p>`-prefix test on the last
fragment, and both bracket commands emit a fragment `<p>...</p>` that
passes it.  In full: (1) a successful hash command emits exactly
`<p>{digest}</p>` and (2) a successful letter-strip command emits exactly
`<p>{stripped content}</p>`; (3) every such fragment starts with `<p>`;
(4) ANY following non-blank plain-text line (one matching no
higher-priority classification) is merged into the last `<p>`-fragment —
its last three characters rewritten, `<br/>` inserted — instead of opening
a new paragraph, and (5) ANY following blank line rewrites that fragment's
tail rather than being a no-op.  Concrete instances of the four
command/follower combinations close the theorem, and the merged two-line
documents keep a single fragment. -/
theorem C10_cmd_paragraph :
    (∀ (st : MDState) (raw : List Char) (p : List Char × List Char),
      st.in_ul = false → st.in_ol = false →
      isPre (str "[[") (rstrip raw) = true →
      findClose2 ']' ((rstrip raw).drop 2) = some p →
      processLine st raw =
        { st with rev := (str "<p>" ++ md5hex (utf8 p.1) ++ str "</p>\n") :: st.rev }) ∧
    (∀ (st : MDState) (raw : List Char) (p : List Char × List Char),
      st.in_ul = false → st.in_ol = false →
      isPre (str "((") (rstrip raw) = true →
      findClose2 ')' ((rstrip raw).drop 2) = some p →
      processLine st raw =
        { st with rev := (str "<p>" ++
            ((p.1.map lowerCh).filter (fun c => !(c = 'c' : Bool))).filter
              (fun c => !(c = 'C' : Bool)) ++ str "</p>\n") :: st.rev }) ∧
    (∀ x : List Char, isPre (str "<p>") (str "<p>" ++ x ++ str "</p>\n") = true) ∧
    (∀ (st : MDState) (last : List Char) (rest : List (List Char)) (raw : List Char),
      st.rev = last :: rest → st.in_ul = false → st.in_ol = false →
      headingRest (rstrip raw) = none → isPre (str "- ") (rstrip raw) = false →
      isPre (str "* ") (rstrip raw) = false → isPre (str "[[") (rstrip raw) = false →
      isPre (str "((") (rstrip raw) = false → rstrip raw ≠ [] →
      isPre (str "<p>") last = true →
      processLine st raw = { st with rev :=
        (dropR 3 last ++ str "<br/>\n" ++ format_text (rstrip raw) ++ str "</p>\n") :: rest }) ∧
    (∀ (st : MDState) (last : List Char) (rest : List (List Char)) (raw : List Char),
      st.rev = last :: rest → st.in_ul = false → st.in_ol = false →
      rstrip raw = [] → isPre (str "<p>") last = true →
      processLine st raw = { st with rev := (dropR 3 last ++ str "</p>\n") :: rest }) ∧
    markdown_to_html [str "[[abc]]", str "x"] =
      str "<p>900150983cd24fb0d6963f7d28e17f72</<br/>\nx</p>\n" ∧
    markdown_to_html [str "[[abc]]", str ""] =
      str "<p>900150983cd24fb0d6963f7d28e17f72</</p>\n" ∧
    markdown_to_html [str "((Cocoa))", str "x"] = str "<p>ooa</<br/>\nx</p>\n" ∧
    markdown_to_html [str "((Cocoa))", str ""] = str "<p>ooa</</p>\n" ∧
    (convertState [str "[[abc]]", str "x"]).rev.length = 1 := by
  refine ⟨?_, ?_, ?_, ?_, ?_, by decide, by decide, by decide, by decide, by decide⟩
  · intro st raw p hu ho hpre hcl
    obtain ⟨r, hr⟩ := isPre_pair hpre
    have hcl2 : findClose2 ']' r = some p := by rw [hr] at hcl; exact hcl
    have eDrop : List.drop 2 ('[' :: '[' :: r) = r := rfl
    have eDash : str "- " = ['-', ' '] := rfl
    have eStar : str "* " = ['*', ' '] := rfl
    have eBr : str "[[" = ['[', '['] := rfl
    unfold processLine
    rw [hr]
    simp [procL, headingRest_cons_ne _ (by decide : ¬ ('[' : Char) = '#'),
      eDash, eStar, eBr, isPre, hu, ho, eDrop, hcl2]
  · intro st raw p hu ho hpre hcl
    obtain ⟨r, hr⟩ := isPre_pair hpre
    have hcl2 : findClose2 ')' r = some p := by rw [hr] at hcl; exact hcl
    have eDrop : List.drop 2 ('(' :: '(' :: r) = r := rfl
    have eDash : str "- " = ['-', ' '] := rfl
    have eStar : str "* " = ['*', ' '] := rfl
    have eBr : str "[[" = ['[', '['] := rfl
    have ePar : str "((" = ['(', '('] := rfl
    unfold processLine
    rw [hr]
    simp [procL, headingRest_cons_ne _ (by decide : ¬ ('(' : Char) = '#'),
      eDash, eStar, eBr, ePar, isPre, hu, ho, eDrop, hcl2]
  · intro x
    rw [List.append_assoc]
    exact isPre_self_append _ _
  · intro st last rest raw hrev hu ho hh hdash hstar hbr hpar hne hp
    unfold processLine
    simp [procL, hh, hdash, hstar, hbr, hpar, hu, ho, hne, hrev, hp]
  · intro st last rest raw hrev hu ho hraw hp
    have eDash : str "- " = ['-', ' '] := rfl
    have eStar : str "* " = ['*', ' '] := rfl
    have eBr : str "[[" = ['[', '['] := rfl
    have ePar : str "((" = ['(', '('] := rfl
    unfold processLine
    rw [hraw]
    simp [procL, headingRest, leadHash, eDash, eStar, eBr, ePar, isPre, hu, ho, hrev, hp]

/-- C10, witness: a plain-text line right after a concrete letter-strip
command output merges into the command's `<p>`-fragment. -/
theorem C10_cmd_paragraph_w :
    processLine ⟨[str "<p>ooa</p>\n"], false, false⟩ (str "y") =
      ⟨[str "<p>ooa</<br/>\ny</p>\n"], false, false⟩ :=
  C10_cmd_paragraph.2.2.2.1 ⟨[str "<p>ooa</p>\n"], false, false⟩ (str "<p>ooa</p>\n") []
    (str "y") rfl rfl rfl (by decide) (by decide) (by decide) (by decide) (by decide)
    (by decide) (by decide)

end MD
